import Mathlib

/-!
Verification of the terminal view engine of `lapce-ui/src/terminal.rs`.

The definitions below are shallow embeddings of the Rust source:
hash maps become association lists with distinct keys, `Vec` becomes
`List`, pixel coordinates (`f64`) become `ℚ`, and the alacritty
grid/search collaborators are represented at their interface.
-/

namespace LapceTerminal

/-- Widget identifiers (`druid::WidgetId`). -/
abbrev WidgetId := Nat

/-- Terminal identifiers (`lapce_rpc::terminal::TermId`). -/
abbrev TermId := Nat

/-- Embedding of `TerminalSplitData` (one tab's split group) as far as the
terminal panel code under verification reads it: its identity, the map from
`TermId` to the terminal's widget id (an association list standing for the
hash map, keys distinct), and the active terminal id. -/
structure TerminalSplitData where
  split_id : WidgetId
  active_term_id : TermId
  terminals : List (TermId × WidgetId)
  deriving Repr, DecidableEq

/-- Association-list lookup, embedding `HashMap::get` for maps whose keys are
distinct (the only maps that arise from the Rust `HashMap`s). -/
def mapGet {α : Type} (m : List (Nat × α)) (k : Nat) : Option α :=
  (m.find? (fun p => p.1 = k)).map (fun p => p.2)

/-- Embedding of `HashMap::remove` on an association list with distinct keys:
the unique entry with the given key is dropped. -/
def eraseKey (tabs : List (WidgetId × TerminalSplitData)) (k : WidgetId) :
    List (WidgetId × TerminalSplitData) :=
  tabs.filter (fun p => p.1 ≠ k)

/-- The ids of the tabs whose split group has no terminals left, in map
iteration order: embeds
`data.terminal.tabs.iter().filter(|(_, t)| t.terminals.is_empty()).map(|(tab_id, _)| *tab_id)`
(`terminal.rs:156-162`). -/
def emptyTabs (tabs : List (WidgetId × TerminalSplitData)) : List WidgetId :=
  (tabs.filter (fun p => p.2.terminals.isEmpty)).map (fun p => p.1)

/-- Embedding of `tabs_order.iter_mut().find(|id| *id == &tab_id)` followed by
`*id = id_to_remove` (`terminal.rs:185-187`): overwrite the first occurrence
of `target` with `repl`. -/
def replaceFirst : List WidgetId → WidgetId → WidgetId → List WidgetId
  | [], _, _ => []
  | x :: xs, target, repl =>
    if x = target then repl :: xs else x :: replaceFirst xs target repl

/-- Number of element comparisons performed by the
`tabs_order.iter_mut().find(|id| *id == &tab_id)` scan: one per visited slot,
stopping at the first hit. -/
def findCost : List WidgetId → WidgetId → Nat
  | [], _ => 0
  | x :: xs, t => if x = t then 1 else 1 + findCost xs t

/-- Embedding of the removal loop `for tab_id in empty_tabs { ... }`
(`terminal.rs:181-188`): per iteration the tab is removed from the map and the
first matching slot of `tabs_order` is overwritten with the sentinel
`id_to_remove`.  The third component counts the comparisons spent on
`tabs_order` by the `find` scans. -/
def removeLoop :
    List WidgetId → WidgetId → List (WidgetId × TerminalSplitData) →
    List WidgetId →
    List (WidgetId × TerminalSplitData) × List WidgetId × Nat
  | [], _, tabs, order => (tabs, order, 0)
  | t :: ts, r, tabs, order =>
    let res := removeLoop ts r (eraseKey tabs t) (replaceFirst order t r)
    (res.1, res.2.1, findCost order t + res.2.2)

/-- Embedding of the batched empty-tab removal of `TerminalPanel::event`
(`terminal.rs:156-192`): if some tab is empty, the first empty id becomes the
sentinel, the removal loop runs, and `tabs_order` is rebuilt by filtering the
sentinel out. -/
def pruneEmptyTabs (tabs : List (WidgetId × TerminalSplitData))
    (tabs_order : List WidgetId) :
    List (WidgetId × TerminalSplitData) × List WidgetId :=
  match (emptyTabs tabs).head? with
  | none => (tabs, tabs_order)
  | some id_to_remove =>
    let res := removeLoop (emptyTabs tabs) id_to_remove tabs tabs_order
    (res.1, res.2.1.filter (fun id => id ≠ id_to_remove))

/-- Operations spent on `tabs_order` by the batched removal: the comparisons
of the per-tab `find` scans plus the full filtering pass that rebuilds the
vector (`terminal.rs:189-192`). -/
def pruneEmptyCost (tabs : List (WidgetId × TerminalSplitData))
    (tabs_order : List WidgetId) : Nat :=
  match (emptyTabs tabs).head? with
  | none => 0
  | some id_to_remove =>
    let res := removeLoop (emptyTabs tabs) id_to_remove tabs tabs_order
    res.2.2 + res.2.1.length

/-- Auxiliary map describing the effect of the overwrite loop: every id
already processed (member of `marked`) reads as the sentinel `r`. -/
def markRemoved (marked : List WidgetId) (r : WidgetId) (x : WidgetId) :
    WidgetId :=
  if x ∈ marked then r else x

theorem replaceFirst_self (l : List WidgetId) (t : WidgetId) :
    replaceFirst l t t = l := by
  induction l with
  | nil => rfl
  | cons x xs ih =>
    by_cases h : x = t
    · simp [replaceFirst, h]
    · simp [replaceFirst, h, ih]

theorem replaceFirst_length (l : List WidgetId) (t r : WidgetId) :
    (replaceFirst l t r).length = l.length := by
  induction l with
  | nil => rfl
  | cons x xs ih =>
    by_cases h : x = t
    · simp [replaceFirst, h]
    · simp [replaceFirst, h, ih]

theorem map_markRemoved_congr (l : List WidgetId) (S T : List WidgetId)
    (r : WidgetId) (h : ∀ x ∈ l, x ∈ S ↔ x ∈ T) :
    l.map (markRemoved S r) = l.map (markRemoved T r) := by
  induction l with
  | nil => rfl
  | cons x xs ih =>
    have hx := h x (by simp)
    have hxs : ∀ y ∈ xs, (y ∈ S ↔ y ∈ T) := fun y hy => h y (by simp [hy])
    simp only [List.map_cons, ih hxs]
    congr 1
    unfold markRemoved
    by_cases hS : x ∈ S
    · simp [hS, hx.mp hS]
    · have hT : x ∉ T := fun h => hS (hx.mpr h)
      simp [hS, hT]

theorem map_markRemoved_single (l : List WidgetId) (r : WidgetId) :
    l.map (markRemoved [r] r) = l := by
  have h : markRemoved [r] r = id := by
    funext x
    unfold markRemoved
    by_cases h : x ∈ [r]
    · simp only [List.mem_singleton] at h
      simp [h]
    · simp only [h, if_false, id]
  rw [h, List.map_id]

theorem replaceFirst_map (l : List WidgetId) (S : List WidgetId)
    (r t : WidgetId) (hl : l.Nodup) (ht : t ∈ l) (htS : t ∉ S) (hrS : r ∈ S) :
    replaceFirst (l.map (markRemoved S r)) t r =
      l.map (markRemoved (t :: S) r) := by
  induction l with
  | nil => simp at ht
  | cons x xs ih =>
    have hx_xs : x ∉ xs := (List.nodup_cons.mp hl).1
    have hxs : xs.Nodup := (List.nodup_cons.mp hl).2
    have hrt : r ≠ t := fun h => htS (h ▸ hrS)
    by_cases hxt : x = t
    · subst hxt
      have hxSf : x ∉ S := htS
      have hhead : markRemoved S r x = x := by simp [markRemoved, hxSf]
      have htail : xs.map (markRemoved S r) = xs.map (markRemoved (x :: S) r) := by
        apply map_markRemoved_congr
        intro y hy
        have hyx : y ≠ x := fun h => hx_xs (h ▸ hy)
        simp [hyx]
      simp only [List.map_cons, hhead, replaceFirst, if_pos rfl, htail]
      have : markRemoved (x :: S) r x = r := by simp [markRemoved]
      simp [this]
    · have ht_xs : t ∈ xs := by
        rcases List.mem_cons.mp ht with h | h
        · exact absurd h.symm hxt
        · exact h
      have hhead : markRemoved S r x ≠ t := by
        unfold markRemoved
        by_cases hxS : x ∈ S
        · simp [hxS, hrt]
        · simp [hxS, hxt]
      have hhead2 : markRemoved (t :: S) r x = markRemoved S r x := by
        simp [markRemoved, hxt]
      simp only [List.map_cons, replaceFirst, if_neg hhead, hhead2,
        ih hxs ht_xs]

/-- The map component of the removal loop: all entries whose key is a removed
id are gone. -/
theorem removeLoop_tabs (et : List WidgetId) (r : WidgetId) :
    ∀ (tabs : List (WidgetId × TerminalSplitData)) (order : List WidgetId),
      (removeLoop et r tabs order).1 =
        tabs.filter (fun p => decide (p.1 ∉ et)) := by
  induction et with
  | nil =>
    intro tabs order
    simp [removeLoop]
  | cons t ts ih =>
    intro tabs order
    show (removeLoop ts r (eraseKey tabs t) (replaceFirst order t r)).1 = _
    rw [ih]
    unfold eraseKey
    rw [List.filter_filter]
    apply List.filter_congr
    intro p _
    by_cases h1 : p.1 = t
    · simp [h1]
    · by_cases h2 : p.1 ∈ ts <;> simp [h1, h2]

/-- The order component of the removal loop, viewed through `markRemoved`:
processing `rest` overwrites exactly the slots holding a member of `rest`. -/
theorem removeLoop_order_map (l : List WidgetId) (r : WidgetId) :
    ∀ (rest S : List WidgetId)
      (tabs : List (WidgetId × TerminalSplitData)),
      l.Nodup → rest.Nodup → (∀ t ∈ rest, t ∈ l) → (∀ t ∈ rest, t ∉ S) →
      r ∈ S →
      (removeLoop rest r tabs (l.map (markRemoved S r))).2.1 =
        l.map (markRemoved (rest ++ S) r) := by
  intro rest
  induction rest with
  | nil =>
    intro S tabs _ _ _ _ _
    simp [removeLoop]
  | cons t ts ih =>
    intro S tabs hl hrest hmem hS hr
    have h1 : replaceFirst (l.map (markRemoved S r)) t r =
        l.map (markRemoved (t :: S) r) :=
      replaceFirst_map l S r t hl (hmem t (by simp)) (hS t (by simp)) hr
    show (removeLoop ts r (eraseKey tabs t)
        (replaceFirst (l.map (markRemoved S r)) t r)).2.1 = _
    rw [h1]
    rw [ih (t :: S) (eraseKey tabs t) hl (List.nodup_cons.mp hrest).2
      (fun u hu => hmem u (by simp [hu]))
      (fun u hu => by
        have hut : u ≠ t := fun h => (List.nodup_cons.mp hrest).1 (h ▸ hu)
        have huS : u ∉ S := hS u (by simp [hu])
        simp [hut, huS])
      (by simp [hr])]
    apply map_markRemoved_congr
    intro x _
    simp only [List.mem_append, List.mem_cons]
    tauto

theorem filter_markRemoved (l : List WidgetId) (S : List WidgetId)
    (r : WidgetId) (hr : r ∈ S) :
    (l.map (markRemoved S r)).filter (fun x => decide (x ≠ r)) =
      l.filter (fun x => decide (x ∉ S)) := by
  induction l with
  | nil => rfl
  | cons x xs ih =>
    by_cases hx : x ∈ S
    · have h0 : markRemoved S r x = r := by simp [markRemoved, hx]
      simpa [h0, hx] using ih
    · have h1 : markRemoved S r x = x := by simp [markRemoved, hx]
      have h2 : x ≠ r := fun h => hx (h ▸ hr)
      simpa [h1, h2, hx] using ih

/-- C1: after the batched removal of empty tabs in `TerminalPanel::event`
(`terminal.rs:156-210`), the ids of `tabs_order` are exactly the keys of the
`tabs` map (no orphans in either direction), and the surviving ids keep their
relative order (the new order is a sublist of the old one).  The hypotheses
are the collection's standing invariants: `tabs_order` holds each id exactly
once and its ids are exactly the map's keys. -/
theorem prune_empty_tabs_sync (tabs : List (WidgetId × TerminalSplitData))
    (order : List WidgetId) (h1 : order.Nodup)
    (h2 : order.Perm (tabs.map Prod.fst)) :
    (∀ id, id ∈ (pruneEmptyTabs tabs order).2 ↔
      id ∈ (pruneEmptyTabs tabs order).1.map Prod.fst) ∧
    (pruneEmptyTabs tabs order).2.Sublist order := by
  have hkeys : (tabs.map Prod.fst).Nodup := h2.nodup h1
  have hmem : ∀ id, id ∈ order ↔ id ∈ tabs.map Prod.fst := fun _ => h2.mem_iff
  have het_sub : ∀ t ∈ emptyTabs tabs, t ∈ tabs.map Prod.fst := by
    intro t ht
    unfold emptyTabs at ht
    simp only [List.mem_map, List.mem_filter] at ht
    obtain ⟨p, ⟨hp, _⟩, rfl⟩ := ht
    exact List.mem_map_of_mem _ hp
  have het_nodup : (emptyTabs tabs).Nodup := by
    unfold emptyTabs
    exact ((List.filter_sublist tabs).map Prod.fst).nodup hkeys
  cases hE : emptyTabs tabs with
  | nil =>
    have hres : pruneEmptyTabs tabs order = (tabs, order) := by
      unfold pruneEmptyTabs
      rw [hE]
      rfl
    rw [hres]
    exact ⟨hmem, List.Sublist.refl order⟩
  | cons r rest =>
    have hres2 : (pruneEmptyTabs tabs order).2 =
        order.filter (fun x => decide (x ∉ rest ++ [r])) := by
      unfold pruneEmptyTabs
      rw [hE]
      simp only [List.head?_cons]
      have step : (removeLoop (r :: rest) r tabs order).2.1 =
          (removeLoop rest r (eraseKey tabs r) order).2.1 := by
        simp only [removeLoop, replaceFirst_self]
      rw [step]
      have hmap : order = order.map (markRemoved [r] r) :=
        (map_markRemoved_single order r).symm
      rw [hmap, removeLoop_order_map order r rest [r] (eraseKey tabs r) h1
        (List.nodup_cons.mp (hE ▸ het_nodup)).2
        (fun t ht => (hmem t).mpr (het_sub t (hE ▸ List.mem_cons_of_mem r ht)))
        (fun t ht => by
          have : t ≠ r := fun h =>
            (List.nodup_cons.mp (hE ▸ het_nodup)).1 (h ▸ ht)
          simp [this])
        (by simp)]
      rw [← hmap]
      exact filter_markRemoved order (rest ++ [r]) r (by simp)
    have hres1 : (pruneEmptyTabs tabs order).1 =
        tabs.filter (fun p => decide (p.1 ∉ r :: rest)) := by
      unfold pruneEmptyTabs
      rw [hE]
      simp only [List.head?_cons]
      exact removeLoop_tabs (r :: rest) r tabs order
    constructor
    · intro id
      rw [hres1, hres2]
      simp only [List.mem_filter, decide_eq_true_eq, List.mem_append,
        List.mem_singleton, List.mem_cons, List.mem_map]
      constructor
      · rintro ⟨hid, hnot⟩
        have hk := (hmem id).mp hid
        simp only [List.mem_map] at hk
        obtain ⟨p, hp, rfl⟩ := hk
        exact ⟨p, ⟨hp, by tauto⟩, rfl⟩
      · rintro ⟨p, ⟨hp, hq⟩, rfl⟩
        refine ⟨(hmem _).mpr (List.mem_map_of_mem _ hp), ?_⟩
        tauto
    · rw [hres2]
      exact List.filter_sublist order

/-- Witness for C1 at a concrete collection: three tabs in order `[1, 2, 3]`,
tabs `1` and `3` empty. -/
theorem prune_empty_tabs_sync_witness :
    ([1, 2, 3] : List WidgetId).Nodup ∧
    ([1, 2, 3] : List WidgetId).Perm
      (([(1, ⟨10, 0, []⟩), (2, ⟨20, 5, [(5, 50)]⟩), (3, ⟨30, 0, []⟩)] :
        List (WidgetId × TerminalSplitData)).map Prod.fst) ∧
    ((∀ id, id ∈ (pruneEmptyTabs
        [(1, ⟨10, 0, []⟩), (2, ⟨20, 5, [(5, 50)]⟩), (3, ⟨30, 0, []⟩)]
        [1, 2, 3]).2 ↔
      id ∈ (pruneEmptyTabs
        [(1, ⟨10, 0, []⟩), (2, ⟨20, 5, [(5, 50)]⟩), (3, ⟨30, 0, []⟩)]
        [1, 2, 3]).1.map Prod.fst) ∧
    (pruneEmptyTabs
        [(1, ⟨10, 0, []⟩), (2, ⟨20, 5, [(5, 50)]⟩), (3, ⟨30, 0, []⟩)]
        [1, 2, 3]).2.Sublist [1, 2, 3]) :=
  ⟨by decide, by decide,
    prune_empty_tabs_sync _ _ (by decide) (by decide)⟩

theorem findCost_le_length (l : List WidgetId) (t : WidgetId) :
    findCost l t ≤ l.length := by
  induction l with
  | nil => simp [findCost]
  | cons x xs ih =>
    by_cases h : x = t
    · simp [findCost, h]
    · simp only [findCost, if_neg h, List.length_cons]
      omega

theorem removeLoop_order_length (et : List WidgetId) (r : WidgetId) :
    ∀ (tabs : List (WidgetId × TerminalSplitData)) (order : List WidgetId),
      (removeLoop et r tabs order).2.1.length = order.length := by
  induction et with
  | nil => intro tabs order; rfl
  | cons t ts ih =>
    intro tabs order
    show (removeLoop ts r (eraseKey tabs t)
      (replaceFirst order t r)).2.1.length = _
    rw [ih, replaceFirst_length]

theorem removeLoop_cost_le (et : List WidgetId) (r : WidgetId) :
    ∀ (tabs : List (WidgetId × TerminalSplitData)) (order : List WidgetId),
      (removeLoop et r tabs order).2.2 ≤ et.length * order.length := by
  induction et with
  | nil => intro tabs order; simp [removeLoop]
  | cons t ts ih =>
    intro tabs order
    show findCost order t +
      (removeLoop ts r (eraseKey tabs t) (replaceFirst order t r)).2.2 ≤ _
    have h1 := findCost_le_length order t
    have h2 := ih (eraseKey tabs t) (replaceFirst order t r)
    rw [replaceFirst_length] at h2
    calc findCost order t +
        (removeLoop ts r (eraseKey tabs t) (replaceFirst order t r)).2.2
        ≤ order.length + ts.length * order.length := Nat.add_le_add h1 h2
      _ = (t :: ts).length * order.length := by
        simp only [List.length_cons]
        ring

/-- C9 (amended): the batched removal of `k` empty tabs among `n` spends at
most `(k + 1) * n` elementary operations on `tabs_order`: each of the `k`
removals runs its own linear `find` scan (at most `n` comparisons), and the
rebuild is one `n`-element filtering pass. -/
theorem prune_empty_cost_bound (tabs : List (WidgetId × TerminalSplitData))
    (order : List WidgetId) :
    pruneEmptyCost tabs order ≤
      ((emptyTabs tabs).length + 1) * order.length := by
  unfold pruneEmptyCost
  cases hE : (emptyTabs tabs).head? with
  | none => simp
  | some r =>
    simp only
    rw [removeLoop_order_length, Nat.succ_mul]
    exact Nat.add_le_add_right (removeLoop_cost_le _ r tabs order) _

/-- Elementary `find` cost of a scan that locates `t` directly after a block
of `k` sentinel values. -/
theorem findCost_append (pre rest : List WidgetId) (t : WidgetId)
    (h : t ∉ pre) : findCost (pre ++ t :: rest) t = pre.length + 1 := by
  induction pre with
  | nil => simp [findCost]
  | cons x xs ih =>
    have hx : x ≠ t := fun hxt => h (by simp [hxt])
    have hxs : t ∉ xs := fun hmem => h (by simp [hmem])
    simp only [List.cons_append, findCost, if_neg hx, List.append_eq,
      ih hxs, List.length_cons]
    omega

theorem replaceFirst_append (pre rest : List WidgetId) (t r : WidgetId)
    (h : t ∉ pre) : replaceFirst (pre ++ t :: rest) t r = pre ++ r :: rest := by
  induction pre with
  | nil => simp [replaceFirst]
  | cons x xs ih =>
    have hx : x ≠ t := fun hxt => h (by simp [hxt])
    have hxs : t ∉ xs := fun hmem => h (by simp [hmem])
    simp only [List.cons_append, replaceFirst, if_neg hx, List.append_eq,
      ih hxs]

/-- Total `find` comparisons paid by the adversarial family: the `j`-th
removed tab sits at slot `j`, so its scan walks all `j` sentinel slots
before it. -/
def segCost : Nat → Nat → Nat
  | _, 0 => 0
  | i, k + 1 => (i + 1) + segCost (i + 1) k

theorem two_mul_segCost (k : Nat) : ∀ i, 2 * segCost i k = k * (2 * i + k + 1) := by
  induction k with
  | zero => intro i; simp [segCost]
  | succ k ih =>
    intro i
    show 2 * ((i + 1) + segCost (i + 1) k) = _
    rw [Nat.mul_add, ih (i + 1)]
    ring

/-- A split group with no terminals, used by the adversarial family. -/
def famSplit (i : Nat) : TerminalSplitData := ⟨i, 0, []⟩

/-- The adversarial family for the cost claim: `n` tabs, all empty, in tab
order `0, 1, …, n-1`. -/
def famTabs (n : Nat) : List (WidgetId × TerminalSplitData) :=
  (List.range n).map (fun i => (i, famSplit i))

theorem emptyTabs_fam (l : List Nat) :
    emptyTabs (l.map (fun i => (i, famSplit i))) = l := by
  induction l with
  | nil => rfl
  | cons x xs ih =>
    show x :: emptyTabs (xs.map (fun i => (i, famSplit i))) = x :: xs
    rw [ih]

theorem keys_fam (l : List Nat) :
    (l.map (fun i => (i, famSplit i))).map Prod.fst = l := by
  induction l with
  | nil => rfl
  | cons x xs ih => simp only [List.map_cons, ih]

theorem famTabs_keys (n : Nat) :
    (famTabs n).map Prod.fst = List.range n :=
  keys_fam (List.range n)

theorem removeLoop_fam (k : Nat) :
    ∀ (i : Nat) (tabs : List (WidgetId × TerminalSplitData)),
      (removeLoop (List.range' i k) 0 tabs
        (List.replicate i 0 ++ List.range' i k)).2.1 =
          List.replicate (i + k) 0 ∧
      (removeLoop (List.range' i k) 0 tabs
        (List.replicate i 0 ++ List.range' i k)).2.2 = segCost i k := by
  induction k with
  | zero =>
    intro i tabs
    simp [removeLoop, segCost]
  | succ k ih =>
    intro i tabs
    have hrange : List.range' i (k + 1) = i :: List.range' (i + 1) k := by
      rw [List.range'_succ]
    have hnotpre : i ∉ List.replicate i 0 := by
      intro h
      have := List.mem_replicate.mp h
      omega
    have hfind : findCost (List.replicate i 0 ++ i :: List.range' (i + 1) k) i
        = i + 1 := by
      rw [findCost_append _ _ _ hnotpre, List.length_replicate]
    have hrepl : replaceFirst
        (List.replicate i 0 ++ i :: List.range' (i + 1) k) i 0
        = List.replicate (i + 1) 0 ++ List.range' (i + 1) k := by
      rw [replaceFirst_append _ _ _ _ hnotpre,
        List.replicate_succ' (n := i), List.append_assoc]
      rfl
    rw [hrange]
    obtain ⟨hord, hcost⟩ := ih (i + 1) (eraseKey tabs i)
    constructor
    · show (removeLoop (List.range' (i + 1) k) 0 (eraseKey tabs i)
        (replaceFirst
          (List.replicate i 0 ++ i :: List.range' (i + 1) k) i 0)).2.1 = _
      rw [hrepl, hord]
      have h9 : i + 1 + k = i + (k + 1) := by omega
      rw [h9]
    · show findCost (List.replicate i 0 ++ i :: List.range' (i + 1) k) i +
        (removeLoop (List.range' (i + 1) k) 0 (eraseKey tabs i)
          (replaceFirst
            (List.replicate i 0 ++ i :: List.range' (i + 1) k) i 0)).2.2 = _
      rw [hfind, hrepl, hcost]
      rfl

/-- Formalisation of the C9 claim as stated: some constant bounds the
batched-removal cost on `tabs_order` linearly in the number of tabs, over all
states satisfying the collection invariants. -/
def LinearPruneBound : Prop :=
  ∃ c : Nat, ∀ (tabs : List (WidgetId × TerminalSplitData))
    (order : List WidgetId),
    order.Nodup → order.Perm (tabs.map Prod.fst) →
    pruneEmptyCost tabs order ≤ c * (order.length + 1)

theorem head?_range (n : Nat) (h : 0 < n) : (List.range n).head? = some 0 := by
  cases n with
  | zero => omega
  | succ m => rw [List.range_succ_eq_map]; rfl

theorem pruneEmptyCost_fam (n : Nat) (h : 0 < n) :
    pruneEmptyCost (famTabs n) (List.range n) = segCost 0 n + n := by
  have hempty : emptyTabs (famTabs n) = List.range n := emptyTabs_fam _
  unfold pruneEmptyCost
  rw [hempty, head?_range n h, List.range_eq_range']
  obtain ⟨hord, hcost⟩ := removeLoop_fam n 0 (famTabs n)
  simp only [List.replicate_zero, List.nil_append, Nat.zero_add] at hord hcost
  show (removeLoop (List.range' 0 n) 0 (famTabs n) (List.range' 0 n)).2.2 +
    (removeLoop (List.range' 0 n) 0 (famTabs n) (List.range' 0 n)).2.1.length
      = segCost 0 n + n
  rw [hord, hcost, List.length_replicate]

/-- C9 counterexample: no constant makes the batched removal cost linear in
the number of tabs.  On the family of `n = 2c + 2` all-empty tabs the per-tab
`find` scans alone cost `n(n+1)/2 > c·(n+1)` comparisons. -/
theorem prune_cost_not_linear : ¬ LinearPruneBound := by
  rintro ⟨c, h⟩
  have hwf2 : (List.range (2 * c + 2)).Perm
      ((famTabs (2 * c + 2)).map Prod.fst) := by
    rw [famTabs_keys]
  have hb := h (famTabs (2 * c + 2)) (List.range (2 * c + 2))
    (List.nodup_range _) hwf2
  rw [pruneEmptyCost_fam _ (by omega), List.length_range] at hb
  have h2 : 2 * segCost 0 (2 * c + 2) = 2 * ((c + 1) * (2 * c + 3)) := by
    rw [two_mul_segCost]
    ring
  have h3 : segCost 0 (2 * c + 2) = (c + 1) * (2 * c + 3) :=
    Nat.eq_of_mul_eq_mul_left (by norm_num) h2
  rw [h3] at hb
  have h4 : (c + 1) * (2 * c + 3) = c * (2 * c + 3) + (2 * c + 3) := by ring
  have h5 : c * (2 * c + 2 + 1) = c * (2 * c + 3) := by ring
  rw [h4, h5] at hb
  generalize c * (2 * c + 3) = P at hb
  omega

/-- A grid point: line index (negative lines are scrollback above the visible
top) and column. -/
@[ext]
structure GridPoint where
  line : Int
  col : Nat
  deriving Repr, DecidableEq

/-- The strict grid order tested by the wraparound guard
`match_start.line.0 < start.line.0 || (match_start.line.0 == start.line.0 &&
match_start.column.0 < start.column.0)` (`terminal.rs:1600-1603`). -/
def ptLt (a b : GridPoint) : Prop :=
  a.line < b.line ∨ (a.line = b.line ∧ a.col < b.col)

instance (a b : GridPoint) : Decidable (ptLt a b) := by
  unfold ptLt
  infer_instance

/-- Non-strict grid order. -/
def ptLe (a b : GridPoint) : Prop :=
  a.line < b.line ∨ (a.line = b.line ∧ a.col ≤ b.col)

theorem not_ptLt_iff (a b : GridPoint) : ¬ ptLt a b ↔ ptLe b a := by
  unfold ptLt ptLe
  omega

theorem ptLe_trans (a b c : GridPoint) (h1 : ptLe a b) (h2 : ptLe b c) :
    ptLe a c := by
  unfold ptLe at *
  omega

/-- Embedding of Rust's `as usize` applied to an `i32` difference
(`(end_line.0 - start.line.0) as usize`, `terminal.rs:1590,1633`): the value
is sign-extended, so a negative difference wraps to a huge count. -/
def i32AsUsize (x : Int) : Nat := (x.emod (2 ^ 64)).toNat

/-- Geometry of one search pass of `LapceTerminal::paint`
(`terminal.rs:1582-1590`): `term.last_column()`, `term.bottommost_line()`,
and the fixed window bottom `end_line = (start.line + term.screen_lines())
.min(term.bottommost_line())` computed before the loop. -/
structure SearchEnv where
  lastColumn : Nat
  bottommost : Int
  endLine : Int
  deriving Repr, DecidableEq

/-- Cursor advance at the end of each loop iteration (`terminal.rs:1626-1632`):
one column right; at the last column wrap to column 0 of the next line; at
the bottom-right corner no move at all. -/
def advancePoint (env : SearchEnv) (p : GridPoint) : GridPoint :=
  if p.col < env.lastColumn then { p with col := p.col + 1 }
  else if p.line < env.bottommost then { line := p.line + 1, col := 0 }
  else p

/-- The bottom-right corner of the grid: the unique fixed point of
`advancePoint`. -/
def cornerPoint (env : SearchEnv) : GridPoint :=
  { line := env.bottommost, col := env.lastColumn }

/-- Fuel-indexed embedding of the highlight loop
`while let Some(m) = term.search_next(&dfas, start, ...)`
(`terminal.rs:1592-1634`).  `searchNext` abstracts `Term::search_next`
(alacritty, an external collaborator): given the cursor and the `max_lines`
bound it may report a match as its (start, end) grid points, end inclusive.
Each iteration recomputes `max_lines = (end_line - start.line) as usize`,
breaks before recording when the match start strictly precedes the cursor,
and otherwise records the match and advances the cursor past the match end.
A `none` result means the fuel ran out with the loop still running. -/
def searchLoop (env : SearchEnv)
    (searchNext : GridPoint → Nat → Option (GridPoint × GridPoint)) :
    Nat → GridPoint → Option (List (GridPoint × GridPoint))
  | 0, _ => none
  | fuel + 1, start =>
    match searchNext start (i32AsUsize (env.endLine - start.line)) with
    | none => some []
    | some m =>
      if ptLt m.1 start then some []
      else
        match searchLoop env searchNext fuel (advancePoint env m.2) with
        | none => none
        | some rest => some (m :: rest)

/-- Formalisation of C2 as stated: for every window geometry, every search
collaborator, and every initial cursor `(-display_offset, 0)`
(`terminal.rs:1582-1587`), the highlight loop finishes within some number of
iterations. -/
def SearchLoopAlwaysTerminates : Prop :=
  ∀ (env : SearchEnv)
    (searchNext : GridPoint → Nat → Option (GridPoint × GridPoint))
    (offset : Nat),
    ∃ fuel,
      (searchLoop env searchNext fuel ⟨-(offset : Int), 0⟩).isSome

/-- A search collaborator realising a 1×1 visible window whose only cell
matches a one-character pattern: every query (origin-inclusive, as
`Term::search_next` is) reports the single-cell match at the corner. -/
def cornerMatchSearch : GridPoint → Nat → Option (GridPoint × GridPoint) :=
  fun _ _ => some (⟨0, 0⟩, ⟨0, 0⟩)

theorem searchLoop_cornerMatch_stuck (fuel : Nat) :
    searchLoop ⟨0, 0, 0⟩ cornerMatchSearch fuel ⟨0, 0⟩ = none := by
  induction fuel with
  | zero => rfl
  | succ n ih =>
    have hadv : advancePoint ⟨0, 0, 0⟩ (⟨0, 0⟩ : GridPoint) = ⟨0, 0⟩ := by
      decide
    have hguard : ¬ ptLt (⟨0, 0⟩ : GridPoint) ⟨0, 0⟩ := by decide
    simp only [searchLoop, cornerMatchSearch, if_neg hguard, hadv, ih]

/-- C2 counterexample: the loop does not terminate for every grid, window and
pattern.  With the corner-match collaborator the cursor sits at the
bottom-right corner where `advancePoint` cannot move it, the reported match
starts exactly at (not before) the cursor so the wraparound guard never
fires, and the loop re-paints the same match forever. -/
theorem search_loop_not_always_terminating : ¬ SearchLoopAlwaysTerminates := by
  intro h
  obtain ⟨fuel, hf⟩ := h ⟨0, 0, 0⟩ cornerMatchSearch 0
  have h0 : (⟨-((0 : Nat) : Int), 0⟩ : GridPoint) = ⟨0, 0⟩ := by
    ext <;> simp
  rw [h0, searchLoop_cornerMatch_stuck fuel] at hf
  simp at hf

/-- Sanity conditions on the search collaborator under which the amended C2
holds: every reported match is well-formed (start at or before its inclusive
end, end inside the grid), and a query at the bottom-right corner never
reports the degenerate single-cell corner match — the one case in which the
cursor cannot make progress. -/
structure AdmissibleSearch (env : SearchEnv)
    (searchNext : GridPoint → Nat → Option (GridPoint × GridPoint)) : Prop where
  wellFormed : ∀ s ml m, searchNext s ml = some m →
    ptLe m.1 m.2 ∧ m.2.col ≤ env.lastColumn ∧ m.2.line ≤ env.bottommost
  noCornerFixpoint : ∀ ml,
    searchNext (cornerPoint env) ml ≠ some (cornerPoint env, cornerPoint env)

/-- Termination measure: row-major count of grid cells from the cursor to
the bottom-right corner. -/
def searchRank (env : SearchEnv) (p : GridPoint) : Nat :=
  (env.bottommost - p.line).toNat * (env.lastColumn + 1) +
    (env.lastColumn - p.col)

theorem searchRank_le (env : SearchEnv) (p q : GridPoint) (hpq : ptLe p q)
    (hql : q.line ≤ env.bottommost) (hqc : q.col ≤ env.lastColumn) :
    searchRank env q ≤ searchRank env p := by
  unfold ptLe at hpq
  unfold searchRank
  rcases hpq with h | ⟨h1, h2⟩
  · have ht : (env.bottommost - q.line).toNat + 1 ≤
        (env.bottommost - p.line).toNat := by omega
    have e2 := Nat.mul_le_mul_right (env.lastColumn + 1) ht
    rw [Nat.succ_mul] at e2
    omega
  · rw [h1]
    omega

theorem searchRank_advance_lt (env : SearchEnv) (p : GridPoint)
    (hc : p.col ≤ env.lastColumn) (hl : p.line ≤ env.bottommost)
    (hne : p ≠ cornerPoint env) :
    searchRank env (advancePoint env p) < searchRank env p := by
  unfold advancePoint
  by_cases h1 : p.col < env.lastColumn
  · rw [if_pos h1]
    unfold searchRank
    simp only
    omega
  · rw [if_neg h1]
    by_cases h2 : p.line < env.bottommost
    · rw [if_pos h2]
      unfold searchRank
      simp only
      have ha : (env.bottommost - p.line).toNat =
          (env.bottommost - (p.line + 1)).toNat + 1 := by omega
      rw [ha, Nat.succ_mul]
      omega
    · exfalso
      apply hne
      unfold cornerPoint
      ext
      · simp
        omega
      · simp
        omega

theorem advance_bounds (env : SearchEnv) (p : GridPoint)
    (hc : p.col ≤ env.lastColumn) (hl : p.line ≤ env.bottommost) :
    (advancePoint env p).col ≤ env.lastColumn ∧
    (advancePoint env p).line ≤ env.bottommost := by
  unfold advancePoint
  by_cases h1 : p.col < env.lastColumn
  · rw [if_pos h1]
    exact ⟨show p.col + 1 ≤ env.lastColumn by omega,
      show p.line ≤ env.bottommost from hl⟩
  · rw [if_neg h1]
    by_cases h2 : p.line < env.bottommost
    · rw [if_pos h2]
      exact ⟨Nat.zero_le _, show p.line + 1 ≤ env.bottommost by omega⟩
    · rw [if_neg h2]
      exact ⟨hc, hl⟩

theorem advance_corner (env : SearchEnv) :
    advancePoint env (cornerPoint env) = cornerPoint env := by
  unfold advancePoint cornerPoint
  simp

theorem searchLoop_succ_none (env : SearchEnv)
    (searchNext : GridPoint → Nat → Option (GridPoint × GridPoint))
    (fuel : Nat) (s : GridPoint)
    (hm : searchNext s (i32AsUsize (env.endLine - s.line)) = none) :
    searchLoop env searchNext (fuel + 1) s = some [] := by
  show (match searchNext s (i32AsUsize (env.endLine - s.line)) with
      | none => some []
      | some m =>
        if ptLt m.1 s then some []
        else
          match searchLoop env searchNext fuel (advancePoint env m.2) with
          | none => none
          | some rest => some (m :: rest)) = some []
  rw [hm]

theorem searchLoop_succ_guard (env : SearchEnv)
    (searchNext : GridPoint → Nat → Option (GridPoint × GridPoint))
    (fuel : Nat) (s : GridPoint) (m : GridPoint × GridPoint)
    (hm : searchNext s (i32AsUsize (env.endLine - s.line)) = some m)
    (hg : ptLt m.1 s) :
    searchLoop env searchNext (fuel + 1) s = some [] := by
  show (match searchNext s (i32AsUsize (env.endLine - s.line)) with
      | none => some []
      | some m =>
        if ptLt m.1 s then some []
        else
          match searchLoop env searchNext fuel (advancePoint env m.2) with
          | none => none
          | some rest => some (m :: rest)) = some []
  rw [hm]
  exact if_pos hg

theorem searchLoop_succ_go (env : SearchEnv)
    (searchNext : GridPoint → Nat → Option (GridPoint × GridPoint))
    (fuel : Nat) (s : GridPoint) (m : GridPoint × GridPoint)
    (hm : searchNext s (i32AsUsize (env.endLine - s.line)) = some m)
    (hg : ¬ ptLt m.1 s) :
    searchLoop env searchNext (fuel + 1) s =
      match searchLoop env searchNext fuel (advancePoint env m.2) with
      | none => none
      | some rest => some (m :: rest) := by
  show (match searchNext s (i32AsUsize (env.endLine - s.line)) with
      | none => some []
      | some m =>
        if ptLt m.1 s then some []
        else
          match searchLoop env searchNext fuel (advancePoint env m.2) with
          | none => none
          | some rest => some (m :: rest)) = _
  rw [hm]
  exact if_neg hg

theorem searchLoop_corner_isSome (env : SearchEnv)
    (searchNext : GridPoint → Nat → Option (GridPoint × GridPoint))
    (h : AdmissibleSearch env searchNext) (k : Nat) :
    (searchLoop env searchNext (k + 1) (cornerPoint env)).isSome := by
  cases hm : searchNext (cornerPoint env)
      (i32AsUsize (env.endLine - (cornerPoint env).line)) with
  | none =>
    rw [searchLoop_succ_none env searchNext k _ hm]
    rfl
  | some m =>
    by_cases hg : ptLt m.1 (cornerPoint env)
    · rw [searchLoop_succ_guard env searchNext k _ m hm hg]
      rfl
    · exfalso
      obtain ⟨hse, hc2, hl2⟩ := h.wellFormed _ _ m hm
      have h1 : ptLe (cornerPoint env) m.1 := (not_ptLt_iff _ _).mp hg
      have hcl : (cornerPoint env).line = env.bottommost := rfl
      have hcc : (cornerPoint env).col = env.lastColumn := rfl
      unfold ptLe at h1 hse
      rw [hcl, hcc] at h1
      have hm1l : m.1.line = env.bottommost := by omega
      have hm1c : m.1.col = env.lastColumn := by omega
      have hm2l : m.2.line = env.bottommost := by omega
      have hm2c : m.2.col = env.lastColumn := by omega
      have hm1 : m.1 = cornerPoint env := by
        ext
        · rw [hm1l]
          rfl
        · rw [hm1c]
          rfl
      have hm2 : m.2 = cornerPoint env := by
        ext
        · rw [hm2l]
          rfl
        · rw [hm2c]
          rfl
      have hpair : m = (cornerPoint env, cornerPoint env) := by
        rw [Prod.ext_iff]
        exact ⟨hm1, hm2⟩
      rw [hpair] at hm
      exact h.noCornerFixpoint _ hm

theorem searchLoop_mono (env : SearchEnv)
    (searchNext : GridPoint → Nat → Option (GridPoint × GridPoint)) :
    ∀ (f g : Nat) (s : GridPoint), f ≤ g →
      (searchLoop env searchNext f s).isSome →
      (searchLoop env searchNext g s).isSome := by
  intro f
  induction f with
  | zero =>
    intro g s _ h
    simp [searchLoop] at h
  | succ n ih =>
    intro g s hfg h
    obtain ⟨g2, rfl⟩ : ∃ g2, g = g2 + 1 := ⟨g - 1, by omega⟩
    cases hm : searchNext s (i32AsUsize (env.endLine - s.line)) with
    | none =>
      rw [searchLoop_succ_none env searchNext g2 s hm]
      rfl
    | some m =>
      by_cases hg : ptLt m.1 s
      · rw [searchLoop_succ_guard env searchNext g2 s m hm hg]
        rfl
      · rw [searchLoop_succ_go env searchNext n s m hm hg] at h
        rw [searchLoop_succ_go env searchNext g2 s m hm hg]
        cases hin : searchLoop env searchNext n (advancePoint env m.2) with
        | none =>
          rw [hin] at h
          simp at h
        | some rest =>
          have hrec : (searchLoop env searchNext g2
              (advancePoint env m.2)).isSome :=
            ih g2 _ (by omega) (by rw [hin]; rfl)
          obtain ⟨rest2, hrest2⟩ := Option.isSome_iff_exists.mp hrec
          rw [hrest2]
          rfl

/-- C2 (amended): the search-highlight loop terminates for every search
collaborator whose reported matches are well-formed and which does not
report the degenerate single-cell corner match when queried at the
bottom-right corner of the grid; it stops when the search reports no further
match or when a found match's start strictly precedes the cursor, and after
each recorded match it advances the cursor one column (wrapping at the last
column).  Without the corner proviso the loop can run forever
(`search_loop_not_always_terminating`). -/
theorem search_loop_terminates (env : SearchEnv)
    (searchNext : GridPoint → Nat → Option (GridPoint × GridPoint))
    (hadm : AdmissibleSearch env searchNext) (start : GridPoint)
    (hcol : start.col ≤ env.lastColumn)
    (hline : start.line ≤ env.bottommost) :
    ∃ fuel, (searchLoop env searchNext fuel start).isSome := by
  refine ⟨searchRank env start + 2, ?_⟩
  have main : ∀ N (s : GridPoint), s.col ≤ env.lastColumn →
      s.line ≤ env.bottommost → searchRank env s ≤ N →
      (searchLoop env searchNext (N + 2) s).isSome := by
    intro N
    induction N using Nat.strong_induction_on with
    | _ N ih =>
      intro s hc hl hr
      show (searchLoop env searchNext (N + 1 + 1) s).isSome
      cases hm : searchNext s (i32AsUsize (env.endLine - s.line)) with
      | none =>
        rw [searchLoop_succ_none env searchNext (N + 1) s hm]
        rfl
      | some m =>
        by_cases hg : ptLt m.1 s
        · rw [searchLoop_succ_guard env searchNext (N + 1) s m hm hg]
          rfl
        · obtain ⟨hse, hc2, hl2⟩ := hadm.wellFormed _ _ m hm
          rw [searchLoop_succ_go env searchNext (N + 1) s m hm hg]
          by_cases hcor : m.2 = cornerPoint env
          · have hadv : advancePoint env m.2 = cornerPoint env := by
              rw [hcor, advance_corner]
            have hin := searchLoop_corner_isSome env searchNext hadm N
            obtain ⟨rest, hrest⟩ := Option.isSome_iff_exists.mp hin
            rw [hadv, hrest]
            rfl
          · have hbounds := advance_bounds env m.2 hc2 hl2
            have hle : ptLe s m.1 := (not_ptLt_iff m.1 s).mp hg
            have hles : ptLe s m.2 := ptLe_trans _ _ _ hle hse
            have hrk1 : searchRank env m.2 ≤ searchRank env s :=
              searchRank_le env s m.2 hles hl2 hc2
            have hrk2 : searchRank env (advancePoint env m.2) <
                searchRank env m.2 :=
              searchRank_advance_lt env m.2 hc2 hl2 hcor
            have hM : searchRank env (advancePoint env m.2) < N := by omega
            have hrec := ih _ hM (advancePoint env m.2) hbounds.1 hbounds.2
              (le_refl _)
            have hmono := searchLoop_mono env searchNext _ (N + 1) _
              (by omega) hrec
            obtain ⟨rest, hrest⟩ := Option.isSome_iff_exists.mp hmono
            rw [hrest]
            rfl
  exact main (searchRank env start) start hcol hline (le_refl _)

/-- A search collaborator that never reports a match. -/
def noMatchSearch : GridPoint → Nat → Option (GridPoint × GridPoint) :=
  fun _ _ => none

/-- Witness for the amended C2 on a concrete 1×1 window with a matchless
pattern. -/
theorem search_loop_terminates_witness :
    ∃ fuel, (searchLoop ⟨0, 0, 0⟩ noMatchSearch fuel ⟨0, 0⟩).isSome :=
  search_loop_terminates ⟨0, 0, 0⟩ noMatchSearch
    ⟨fun s ml m h => by simp [noMatchSearch] at h,
     fun ml h => by simp [noMatchSearch] at h⟩
    ⟨0, 0⟩ (by decide) (by decide)

/-- Embedding of the clamped signed-to-unsigned row conversion of the
selection painter, `let start_line = selection.start.line.0 +
content.display_offset as i32; let start_line = if start_line < 0 { 0 } else
{ start_line as usize };` (`terminal.rs:1436-1441`, likewise for the end
line at `terminal.rs:1444-1445`). -/
def clampLineToRow (line : Int) (displayOffset : Nat) : Nat :=
  if line + (displayOffset : Int) < 0 then 0
  else (line + (displayOffset : Int)).toNat

/-- Left column bound of the selection fill on one grid row
(`terminal.rs:1449-1453`). -/
def selectionLeftCol (isBlock : Bool) (startLine startCol : Nat)
    (line : Nat) : Nat :=
  if isBlock || line = startLine then startCol else 0

/-- Right column bound of the selection fill on one grid row
(`terminal.rs:1454-1458`); `lastColumn` is the value of
`term.last_column().0`. -/
def selectionRightCol (isBlock : Bool) (endLine endCol lastColumn : Nat)
    (line : Nat) : Nat :=
  if isBlock || line = endLine then endCol + 1 else lastColumn

/-- Alacritty's `Dimensions::last_column` for a grid of `columns` columns:
`Column(columns - 1)`. -/
def lastColumnOf (columns : Nat) : Nat := columns - 1

/-- The rows visited by the fill loop `for line in start_line..end_line + 1`
(`terminal.rs:1448`). -/
def selectionPaintRows (startRow endRow : Nat) : List Nat :=
  List.range' startRow (endRow + 1 - startRow)

/-- Pixel `y0` of a painted row: `line as f64 * line_height`
(`terminal.rs:1461`). -/
def rowY (line : Nat) (lineHeight : ℚ) : ℚ := (line : ℚ) * lineHeight

/-- Pixel `x` of a column bound: `col as f64 * char_width`
(`terminal.rs:1459-1460`). -/
def colX (col : Nat) (charWidth : ℚ) : ℚ := (col : ℚ) * charWidth

/-- C3: on an 80-column grid (char width 10) with a non-block selection from
row 0 to row 2, the interior row 1 is filled only up to
`last_column = 79` — right pixel edge `79 * char_width = 790` — instead of
the full grid width `columns * char_width = 800` that the specification
requires; the last column stays unpainted.  (An end row whose `end_col` is
the last column would be filled to `end_col + 1 = 80`, so the interior rows
are inconsistently one column short.)  This theorem evaluates the embedded
code at the failing input of the C3 record. -/
theorem selection_interior_row_not_full_width :
    selectionLeftCol false 0 3 1 = 0 ∧
    selectionRightCol false 2 5 (lastColumnOf 80) 1 = 79 ∧
    colX (selectionRightCol false 2 5 (lastColumnOf 80) 1) 10 = 790 ∧
    colX 80 10 = 800 ∧
    colX (selectionRightCol false 2 5 (lastColumnOf 80) 1) 10 ≠ colX 80 10 := by
  have h1 : selectionRightCol false 2 5 (lastColumnOf 80) 1 = 79 := rfl
  refine ⟨rfl, h1, ?_, ?_, ?_⟩
  · rw [h1]
    norm_num [colX]
  · norm_num [colX]
  · rw [h1]
    norm_num [colX]

/-- C10: a selection line in scrollback above the visible top is clamped to
row 0 before the unsigned conversion — the converted row equals
`max (line + display_offset) 0`, so the conversion never wraps — and every
selection fill rectangle has top edge `y0 = row * line_height ≥ 0`. -/
theorem selection_scrollback_clamped (selLine : Int) (displayOffset : Nat)
    (startRow endRow : Nat) (lineHeight : ℚ) (h : 0 ≤ lineHeight) :
    ((clampLineToRow selLine displayOffset : Int) =
      max (selLine + (displayOffset : Int)) 0) ∧
    ∀ row ∈ selectionPaintRows startRow endRow, 0 ≤ rowY row lineHeight := by
  constructor
  · unfold clampLineToRow
    by_cases hneg : selLine + (displayOffset : Int) < 0
    · rw [if_pos hneg,
        max_eq_right (by omega : selLine + (displayOffset : Int) ≤ 0)]
      rfl
    · rw [if_neg hneg, Int.toNat_of_nonneg (by omega),
        max_eq_left (by omega)]
  · intro row _
    unfold rowY
    exact mul_nonneg (by positivity) h

/-- Witness for C10 at a selection start line 5 rows above the visible top
of a window scrolled up by 2 lines. -/
theorem selection_scrollback_clamped_witness :
    (0 : ℚ) ≤ 20 ∧
    (((clampLineToRow (-5) 2 : Int) = max ((-5) + ((2 : Nat) : Int)) 0) ∧
     ∀ row ∈ selectionPaintRows 0 3, 0 ≤ rowY row 20) :=
  ⟨by norm_num, selection_scrollback_clamped (-5) 2 0 3 20 (by norm_num)⟩

/-- Alacritty's `SelectionType` (external collaborator to this file). -/
inductive SelectionType
  | Simple
  | Semantic
  | Lines
  | Block
  deriving Repr, DecidableEq

/-- Alacritty's `Direction` argument of `Selection::new`/`update`
(always `Left` at the call sites under verification). -/
inductive SelSide
  | Left
  | Right
  deriving Repr, DecidableEq

/-- Modelled from the spec: alacritty's `Selection` is an external
collaborator; per §3 (SelectionRange) it stores the kind, the anchor and
head grid points, and the tie-breaking side. -/
structure GridSelection where
  ty : SelectionType
  anchorPoint : GridPoint
  headPoint : GridPoint
  side : SelSide
  deriving Repr, DecidableEq

/-- Modelled from the spec: `Selection::new(ty, point, side)` creates a
selection with `anchor = head = point` (§4.3). -/
def selectionNew (ty : SelectionType) (p : GridPoint) (side : SelSide) :
    GridSelection :=
  { ty := ty, anchorPoint := p, headPoint := p, side := side }

/-- Modelled from the spec: `Selection::update(point, side)` keeps the
anchor fixed and moves only the head (§3 invariant: anchor is fixed once
set; only head moves during drag-extension). -/
def selectionUpdate (s : GridSelection) (p : GridPoint) (side : SelSide) :
    GridSelection :=
  { s with headPoint := p, side := side }

/-- Rust `as usize` on an `f64` value (pixels modelled exactly as ℚ):
saturating truncation toward zero, so negative values collapse to 0. -/
def f64AsUsize (q : ℚ) : Nat :=
  if q < 0 then 0 else min (Int.toNat ⌊q⌋) (2 ^ 64 - 1)

/-- Rust `as i32` on an `f64` value (pixels modelled exactly as ℚ):
saturating truncation toward zero. -/
def f64AsI32 (q : ℚ) : Int :=
  if q < 0 then max ⌈q⌉ (-(2 ^ 31)) else min ⌊q⌋ (2 ^ 31 - 1)

/-- Grid state read by `LapceTerminal::select`: `term.screen_lines()`,
`term.columns()`, `term.grid().display_offset()` and the current
selection. -/
structure TermGridState where
  screenLines : Nat
  columns : Nat
  displayOffset : Nat
  selection : Option GridSelection
  deriving Repr, DecidableEq

/-- Grid point computed by `LapceTerminal::select` (`terminal.rs:1239-1243`):
`row_size = self.height / term.screen_lines()`,
`col_size = self.width / term.columns()`,
`column = (mouse.x / col_size) as usize`,
`line = (mouse.y / row_size) as i32 - display_offset as i32`
(the `i32` subtraction is modelled as exact integer subtraction). -/
def selectGridPoint (width height : ℚ) (st : TermGridState)
    (mousex mousey : ℚ) : GridPoint :=
  let rowSize := height / (st.screenLines : ℚ)
  let colSize := width / (st.columns : ℚ)
  let column := f64AsUsize (mousex / colSize)
  let line := f64AsI32 (mousey / rowSize) - (st.displayOffset : Int)
  { line := line, col := column }

/-- Embedding of `LapceTerminal::select` (`terminal.rs:1233-1257`): compute
the grid point, then either update the head of the existing selection or
create a fresh one of the requested kind at the point. -/
def select (width height : ℚ) (st : TermGridState) (mousex mousey : ℚ)
    (ty : SelectionType) : TermGridState :=
  let p := selectGridPoint width height st mousex mousey
  match st.selection with
  | some sel =>
    { st with selection := some (selectionUpdate sel p SelSide.Left) }
  | none =>
    { st with selection := some (selectionNew ty p SelSide.Left) }

/-- C4: a pointer-driven selection edit creates a fresh selection with
anchor = head = the computed grid point when no selection exists, and
otherwise keeps the anchor (and kind) and sets only the head. -/
theorem select_anchor_head (width height : ℚ) (st : TermGridState)
    (mousex mousey : ℚ) (ty : SelectionType) :
    (st.selection = none →
      (select width height st mousex mousey ty).selection =
        some { ty := ty,
               anchorPoint := selectGridPoint width height st mousex mousey,
               headPoint := selectGridPoint width height st mousex mousey,
               side := SelSide.Left }) ∧
    (∀ s, st.selection = some s →
      (select width height st mousex mousey ty).selection =
        some { ty := s.ty, anchorPoint := s.anchorPoint,
               headPoint := selectGridPoint width height st mousex mousey,
               side := SelSide.Left }) := by
  constructor
  · intro h
    unfold select
    rw [h]
    rfl
  · intro s h
    unfold select
    rw [h]
    rfl

/-- Witness for C4: one call on a state with no selection, one on a state
with an existing selection anchored at `(1, 2)`. -/
theorem select_anchor_head_witness :
    (select 800 480 ⟨24, 80, 0, none⟩ 100 200 SelectionType.Simple).selection =
      some { ty := SelectionType.Simple,
             anchorPoint := selectGridPoint 800 480 ⟨24, 80, 0, none⟩ 100 200,
             headPoint := selectGridPoint 800 480 ⟨24, 80, 0, none⟩ 100 200,
             side := SelSide.Left } ∧
    (select 800 480
        ⟨24, 80, 0, some ⟨SelectionType.Simple, ⟨1, 2⟩, ⟨3, 4⟩, SelSide.Left⟩⟩
        100 200 SelectionType.Lines).selection =
      some { ty := SelectionType.Simple, anchorPoint := ⟨1, 2⟩,
             headPoint := selectGridPoint 800 480
               ⟨24, 80, 0, some ⟨SelectionType.Simple, ⟨1, 2⟩, ⟨3, 4⟩,
                 SelSide.Left⟩⟩ 100 200,
             side := SelSide.Left } :=
  ⟨(select_anchor_head 800 480 _ 100 200 _).1 rfl,
   (select_anchor_head 800 480 _ 100 200 _).2 _ rfl⟩

/-- The selection line as the specification's words state it (§4.3):
`floor(pixel.y / row_height) - display_offset`. -/
def specSelectLine (height : ℚ) (st : TermGridState) (mousey : ℚ) : Int :=
  ⌊mousey / (height / (st.screenLines : ℚ))⌋ - (st.displayOffset : Int)

/-- The selection column as the specification's words state it (§4.3):
`floor(pixel.x / col_width)`, an integer since the floor of a negative
coordinate is negative. -/
def specSelectCol (width : ℚ) (st : TermGridState) (mousex : ℚ) : Int :=
  ⌊mousex / (width / (st.columns : ℚ))⌋

/-- C5 counterexample: for a pointer dragged 5 pixels above the pane
(pixel.y = −5, row height 10), the specification formula gives line
`floor(−0.5) = −1`, but the code's `as i32` cast truncates toward zero and
yields line 0. -/
theorem select_point_trunc_ne_floor :
    (selectGridPoint 10 10 ⟨1, 1, 0, none⟩ 0 (-5)).line = 0 ∧
    specSelectLine 10 ⟨1, 1, 0, none⟩ (-5) = -1 ∧
    (selectGridPoint 10 10 ⟨1, 1, 0, none⟩ 0 (-5)).line ≠
      specSelectLine 10 ⟨1, 1, 0, none⟩ (-5) := by
  have h1 : (selectGridPoint 10 10 ⟨1, 1, 0, none⟩ 0 (-5)).line = 0 := by
    show f64AsI32 ((-5) / ((10 : ℚ) / ((1 : Nat) : ℚ))) - ((0 : Nat) : Int) = 0
    have hq : ((-5) / ((10 : ℚ) / ((1 : Nat) : ℚ))) = -(1 / 2) := by norm_num
    rw [hq]
    unfold f64AsI32
    rw [if_pos (by norm_num : (-(1 / 2) : ℚ) < 0)]
    have hc : ⌈(-(1 / 2) : ℚ)⌉ = 0 := by
      rw [Int.ceil_neg]
      norm_num
    rw [hc, max_eq_left (by norm_num : (-(2 ^ 31) : Int) ≤ 0)]
    norm_num
  have h2 : specSelectLine 10 ⟨1, 1, 0, none⟩ (-5) = -1 := by
    unfold specSelectLine
    norm_num
  exact ⟨h1, h2, by rw [h1, h2]; norm_num⟩

/-- C5 (amended): for pointer coordinates inside the pane (nonnegative pixel
position), positive pane size, a nonempty grid, and coordinates small enough
not to saturate the casts, the selection grid point is exactly
`(floor(y / row_height) - display_offset, floor(x / col_width))` with
`row_height = height / screen_lines` and `col_width = width / columns`.
For negative pointer coordinates the casts truncate toward zero (line) and
clamp to 0 (column) instead of flooring (`select_point_trunc_ne_floor`). -/
theorem select_point_floor (width height : ℚ) (st : TermGridState)
    (mousex mousey : ℚ) (hx : 0 ≤ mousex) (hy : 0 ≤ mousey)
    (hw : 0 < width) (hh : 0 < height) (hsl : 0 < st.screenLines)
    (hcols : 0 < st.columns)
    (hbx : Int.toNat ⌊mousex / (width / (st.columns : ℚ))⌋ ≤ 2 ^ 64 - 1)
    (hby : ⌊mousey / (height / (st.screenLines : ℚ))⌋ ≤ 2 ^ 31 - 1) :
    (selectGridPoint width height st mousex mousey).line =
      specSelectLine height st mousey ∧
    ((selectGridPoint width height st mousex mousey).col : Int) =
      specSelectCol width st mousex := by
  have hrow : 0 < height / (st.screenLines : ℚ) :=
    div_pos hh (by exact_mod_cast hsl)
  have hcol : 0 < width / (st.columns : ℚ) :=
    div_pos hw (by exact_mod_cast hcols)
  have hqy : 0 ≤ mousey / (height / (st.screenLines : ℚ)) :=
    div_nonneg hy hrow.le
  have hqx : 0 ≤ mousex / (width / (st.columns : ℚ)) :=
    div_nonneg hx hcol.le
  constructor
  · show f64AsI32 (mousey / (height / (st.screenLines : ℚ))) -
      (st.displayOffset : Int) = specSelectLine height st mousey
    unfold f64AsI32 specSelectLine
    rw [if_neg (not_lt.mpr hqy), min_eq_left hby]
  · show ((f64AsUsize (mousex / (width / (st.columns : ℚ))) : Nat) : Int) =
      specSelectCol width st mousex
    unfold f64AsUsize specSelectCol
    rw [if_neg (not_lt.mpr hqx), min_eq_left hbx]
    exact Int.toNat_of_nonneg (Int.floor_nonneg.mpr hqx)

/-- Witness for the amended C5 on a 800×480 pane with an 80×24 grid and a
pointer at pixel (100, 200). -/
theorem select_point_floor_witness :
    (0 : ℚ) ≤ 100 ∧ (0 : ℚ) ≤ 200 ∧ (0 : ℚ) < 800 ∧ (0 : ℚ) < 480 ∧
    0 < (24 : Nat) ∧ 0 < (80 : Nat) ∧
    Int.toNat ⌊(100 : ℚ) / (800 / (((80 : Nat) : ℚ)))⌋ ≤ 2 ^ 64 - 1 ∧
    ⌊(200 : ℚ) / (480 / (((24 : Nat) : ℚ)))⌋ ≤ 2 ^ 31 - 1 ∧
    ((selectGridPoint 800 480 ⟨24, 80, 0, none⟩ 100 200).line =
      specSelectLine 480 ⟨24, 80, 0, none⟩ 200 ∧
    ((selectGridPoint 800 480 ⟨24, 80, 0, none⟩ 100 200).col : Int) =
      specSelectCol 800 ⟨24, 80, 0, none⟩ 100) :=
  ⟨by norm_num, by norm_num, by norm_num, by norm_num, by norm_num,
   by norm_num, by norm_num, by norm_num,
   select_point_floor 800 480 ⟨24, 80, 0, none⟩ 100 200 (by norm_num)
     (by norm_num) (by norm_num) (by norm_num) (by norm_num) (by norm_num)
     (by norm_num) (by norm_num)⟩

/-- The terminal collection as read by the widgets: the tab map keyed by
split id, the tab order, and the active tab index (§3 TerminalCollection). -/
structure TerminalPanelModel where
  tabs : List (WidgetId × TerminalSplitData)
  tabs_order : List WidgetId
  active_tab_index : Nat
  deriving Repr, DecidableEq

/-- Embedding of the stale-reference guard of `LapceTerminal::event`
(`terminal.rs:1272-1280`): the handler first resolves its
`(split_id, term_id)` pair through the collection and returns at once when
the lookup fails, before reading or mutating anything.  The remainder of the
handler — everything after the guard — is abstracted as `handler`, which
receives the resolved terminal's widget id; the `Bool` records whether it
ran. -/
def terminalEvent (model : TerminalPanelModel) (split_id : WidgetId)
    (term_id : TermId)
    (handler : WidgetId → TerminalPanelModel → TerminalPanelModel) :
    TerminalPanelModel × Bool :=
  match (mapGet model.tabs split_id).bind
      (fun split => mapGet split.terminals term_id) with
  | none => (model, false)
  | some t => (handler t model, true)

/-- C8: an event delivered to a terminal widget whose (split id, terminal
id) pair no longer resolves to a live terminal is silently ignored — the
event handler returns the collection unchanged, runs no continuation and
raises no error, whatever the rest of the handler would have done. -/
theorem terminal_event_stale_noop (model : TerminalPanelModel)
    (split_id : WidgetId) (term_id : TermId)
    (handler : WidgetId → TerminalPanelModel → TerminalPanelModel)
    (h : (mapGet model.tabs split_id).bind
      (fun split => mapGet split.terminals term_id) = none) :
    terminalEvent model split_id term_id handler = (model, false) := by
  unfold terminalEvent
  rw [h]

/-- Witness for C8: a collection holding only split 1, queried with the
stale split id 2, with a handler that would clear the whole collection. -/
theorem terminal_event_stale_noop_witness :
    ((mapGet ((⟨[(1, ⟨10, 7, [(7, 70)]⟩)], [1], 0⟩ :
        TerminalPanelModel)).tabs 2).bind
      (fun split => mapGet split.terminals 7) = none) ∧
    terminalEvent (⟨[(1, ⟨10, 7, [(7, 70)]⟩)], [1], 0⟩ : TerminalPanelModel)
      2 7 (fun _ _ => ⟨[], [], 0⟩) =
    ((⟨[(1, ⟨10, 7, [(7, 70)]⟩)], [1], 0⟩ : TerminalPanelModel), false) :=
  ⟨rfl, terminal_event_stale_noop _ 2 7 _ rfl⟩

/-- Effects emitted by the focus handling around the batched removal. -/
inductive UIEffect
  | FocusWidget (id : WidgetId)
  | HidePanel
  | NewTab
  deriving Repr, DecidableEq

/-- Modelled from the spec: `TerminalPanelData::active_terminal_split`
(lapce-data, code of this repository outside the verified sources) — per §3
the active tab index points into `tab_order`, clamped to `[0, len-1]` when
the collection is non-empty, and the active tab id is looked up in the
map. -/
def activeTerminalSplit (m : TerminalPanelModel) : Option TerminalSplitData :=
  match m.tabs_order.get? (min m.active_tab_index (m.tabs_order.length - 1)) with
  | none => none
  | some tab_id => mapGet m.tabs tab_id

/-- Modelled from the spec: `TerminalPanelData::active_terminal` (lapce-data)
returns the active terminal of the active split (§4.1, §4.6). -/
def activeTerminal (m : TerminalPanelModel) : Option WidgetId :=
  (activeTerminalSplit m).bind (fun s => mapGet s.terminals s.active_term_id)

/-- Embedding of `TerminalPanel::handle_focus` (`terminal.rs:100-117`):
submit a focus command to the active terminal when one exists, otherwise
create a new terminal tab (which takes focus, §4.6). -/
def handleFocus (m : TerminalPanelModel) : List UIEffect :=
  match activeTerminal m with
  | some wid => [UIEffect.FocusWidget wid]
  | none => [UIEffect.NewTab]

/-- Embedding of the post-removal focus handling of `TerminalPanel::event`
(`terminal.rs:196-209`): with `tabs_order` emptied, hide the terminal panel
when it is visible and focus the last active main-editor tab when there is
one; otherwise route focus through `handle_focus`.  `panelVisible` abstracts
`data.panel.is_panel_visible(&PanelKind::Terminal)` and `mainActiveTab`
abstracts `*data.main_split.active_tab` (both lapce-data, modelled from the
spec at their interface). -/
def postPruneFocus (m : TerminalPanelModel) (panelVisible : Bool)
    (mainActiveTab : Option WidgetId) : List UIEffect :=
  if m.tabs_order.isEmpty then
    (if panelVisible then [UIEffect.HidePanel] else []) ++
      (match mainActiveTab with
       | some active => [UIEffect.FocusWidget active]
       | none => [])
  else handleFocus m

/-- The effects of one batched-removal event pass: nothing when no tab is
empty (`terminal.rs:176`), otherwise the post-removal focus handling on the
pruned collection. -/
def prunePassEffects (tabs : List (WidgetId × TerminalSplitData))
    (order : List WidgetId) (active : Nat) (panelVisible : Bool)
    (mainActiveTab : Option WidgetId) : List UIEffect :=
  match (emptyTabs tabs).head? with
  | none => []
  | some _ =>
    postPruneFocus
      ⟨(pruneEmptyTabs tabs order).1, (pruneEmptyTabs tabs order).2, active⟩
      panelVisible mainActiveTab

/-- C7: in an event pass that removed empty tabs, if the collection came out
empty, the panel visibility is withdrawn (hidden exactly when it was
visible), focus moves to the last active main-editor widget when one exists,
and no new tab is created; if tabs remain, focus goes to the active terminal
when one exists and a new tab is created (taking focus) only when none
does. -/
theorem post_prune_focus_routing (tabs : List (WidgetId × TerminalSplitData))
    (order : List WidgetId) (active : Nat) (vis : Bool)
    (mainA : Option WidgetId) (r : WidgetId)
    (hr : (emptyTabs tabs).head? = some r) :
    ((pruneEmptyTabs tabs order).2 = [] →
      (vis = true →
        UIEffect.HidePanel ∈ prunePassEffects tabs order active vis mainA) ∧
      (vis = false →
        UIEffect.HidePanel ∉ prunePassEffects tabs order active vis mainA) ∧
      (∀ a, mainA = some a →
        UIEffect.FocusWidget a ∈ prunePassEffects tabs order active vis mainA) ∧
      UIEffect.NewTab ∉ prunePassEffects tabs order active vis mainA) ∧
    ((pruneEmptyTabs tabs order).2 ≠ [] →
      (∀ w, activeTerminal ⟨(pruneEmptyTabs tabs order).1,
          (pruneEmptyTabs tabs order).2, active⟩ = some w →
        prunePassEffects tabs order active vis mainA =
          [UIEffect.FocusWidget w]) ∧
      (activeTerminal ⟨(pruneEmptyTabs tabs order).1,
          (pruneEmptyTabs tabs order).2, active⟩ = none →
        prunePassEffects tabs order active vis mainA =
          [UIEffect.NewTab])) := by
  have heff : prunePassEffects tabs order active vis mainA =
      postPruneFocus
        ⟨(pruneEmptyTabs tabs order).1, (pruneEmptyTabs tabs order).2, active⟩
        vis mainA := by
    unfold prunePassEffects
    rw [hr]
  constructor
  · intro hempty
    refine ⟨?_, ?_, ?_, ?_⟩
    · intro hv
      subst hv
      rw [heff]
      simp [postPruneFocus, hempty]
    · intro hv
      subst hv
      rw [heff]
      cases mainA <;> simp [postPruneFocus, hempty]
    · intro a ha
      subst ha
      rw [heff]
      cases vis <;> simp [postPruneFocus, hempty]
    · rw [heff]
      cases vis <;> cases mainA <;> simp [postPruneFocus, hempty]
  · intro hne
    have hF : (pruneEmptyTabs tabs order).2.isEmpty = false := by
      rcases hpp : (pruneEmptyTabs tabs order).2 with _ | ⟨x, xs⟩
      · exact absurd hpp hne
      · rfl
    constructor
    · intro w hw
      rw [heff]
      simp [postPruneFocus, hF, handleFocus, hw]
    · intro hnone
      rw [heff]
      simp [postPruneFocus, hF, handleFocus, hnone]

/-- Witness for C7: an emptied collection (sole tab 1 empty, panel visible,
main-editor tab 99 recorded) and a surviving collection (tab 2 remains with
active terminal widget 50). -/
theorem post_prune_focus_routing_witness :
    ((emptyTabs
      ([(1, ⟨10, 0, []⟩)] : List (WidgetId × TerminalSplitData))).head? =
        some 1) ∧
    ((pruneEmptyTabs [(1, ⟨10, 0, []⟩)] [1]).2 = []) ∧
    UIEffect.HidePanel ∈
      prunePassEffects [(1, ⟨10, 0, []⟩)] [1] 0 true (some 99) ∧
    UIEffect.FocusWidget 99 ∈
      prunePassEffects [(1, ⟨10, 0, []⟩)] [1] 0 true (some 99) ∧
    ((emptyTabs
      ([(1, ⟨10, 0, []⟩), (2, ⟨20, 5, [(5, 50)]⟩)] :
        List (WidgetId × TerminalSplitData))).head? = some 1) ∧
    ((pruneEmptyTabs [(1, ⟨10, 0, []⟩), (2, ⟨20, 5, [(5, 50)]⟩)]
        [1, 2]).2 ≠ []) ∧
    prunePassEffects [(1, ⟨10, 0, []⟩), (2, ⟨20, 5, [(5, 50)]⟩)] [1, 2] 0
        false none = [UIEffect.FocusWidget 50] :=
  ⟨rfl, by decide,
   ((post_prune_focus_routing [(1, ⟨10, 0, []⟩)] [1] 0 true (some 99) 1
      rfl).1 (by decide)).1 rfl,
   (((post_prune_focus_routing [(1, ⟨10, 0, []⟩)] [1] 0 true (some 99) 1
      rfl).1 (by decide)).2.2.1) 99 rfl,
   rfl, by decide,
   ((post_prune_focus_routing [(1, ⟨10, 0, []⟩), (2, ⟨20, 5, [(5, 50)]⟩)]
      [1, 2] 0 false none 1 rfl).2 (by decide)).1 50 (by decide)⟩

end LapceTerminal
